import Mathlib

/-!
Verification of the serde_jacl decode engine (src/de.rs, src/parsing.rs,
src/parsing/{comment,string,literal}.rs, src/structs.rs, src/number.rs).

The embedding works over `List Char` (all inputs of interest are ASCII, so
Rust byte indices coincide with character indices).  Stateful deserializer
methods become explicit state-passing functions; a Rust panic
(`unreachable!` / `.expect`) is modelled as the outer `.error` of an
`Except String` layer, while a returned `JaclDeError` is the inner
`Except JaclDeError` layer whose carrier state persists (matching `&mut self`).
-/

/-- Separator characters accepted by `parsing::whitespace` (`one_of " ,\r\n\t"`). -/
def isSepChar (c : Char) : Bool :=
  c == ' ' || c == ',' || c == '\r' || c == '\n' || c == '\t'

/-- Rust `char::is_whitespace` (Unicode `White_Space`), as used in
`parse_string`.  All White_Space scalar values are listed. -/
def rustWhitespace (c : Char) : Bool :=
  let n := c.toNat
  (0x09 ≤ n && n ≤ 0x0D) || n == 0x20 || n == 0x85 || n == 0xA0 ||
  n == 0x1680 || (0x2000 ≤ n && n ≤ 0x200A) || n == 0x2028 || n == 0x2029 ||
  n == 0x202F || n == 0x205F || n == 0x3000

/-- First index at which `pat` occurs in the list (nom `take_until` search). -/
def findSub (pat : List Char) : List Char → Option Nat
  | [] => if pat.isPrefixOf ([] : List Char) then some 0 else none
  | c :: r =>
    if pat.isPrefixOf (c :: r) then some 0 else (findSub pat r).map (· + 1)

/-- Last index at which `pat` occurs (Rust `str::rfind`); `none` if absent. -/
def rfindIdx : List Char → List Char → Option Nat
  | [], pat => if pat.isPrefixOf ([] : List Char) then some 0 else none
  | c :: r, pat =>
    match rfindIdx r pat with
    | some i => some (i + 1)
    | none => if pat.isPrefixOf (c :: r) then some 0 else none

/-- `parsing::comment::multiline_comment`: `tag "/*"`, `take_until "*/"`,
`tag "*/"`.  Returns the remaining input on success. -/
def multiline_comment (s : List Char) : Option (List Char) :=
  if ['/', '*'].isPrefixOf s then
    match findSub ['*', '/'] (s.drop 2) with
    | some i => some (s.drop (2 + i + 2))
    | none => none
  else none

/-- `parsing::comment::eol_comment`: `tag "//"`, `take_until "\n"`, `tag "\n"`. -/
def eol_comment (s : List Char) : Option (List Char) :=
  if ['/', '/'].isPrefixOf s then
    match findSub ['\n'] (s.drop 2) with
    | some i => some (s.drop (2 + i + 1))
    | none => none
  else none

/-- `parsing::whitespace`: `many1(one_of " ,\r\n\t")`. -/
def whitespace (s : List Char) : Option (List Char) :=
  match s.takeWhile isSepChar with
  | [] => none
  | _ => some (s.dropWhile isSepChar)

/-- One iteration of `many0(alt((multiline_comment, eol_comment, whitespace)))`:
nom's `alt` tries the branches in source order. -/
def skipStep (s : List Char) : Option (List Char) :=
  match multiline_comment s with
  | some r => some r
  | none =>
    match eol_comment s with
    | some r => some r
    | none => whitespace s

/-- Fuel-driven iteration of `skipStep`; each successful step consumes at
least one character, so fuel `s.length` always suffices. -/
def skipGo : Nat → List Char → List Char
  | 0, s => s
  | n + 1, s =>
    match skipStep s with
    | some r => skipGo n r
    | none => s

/-- The input transformation performed by `Deserializer::skip_non_tokens`
(`many0` of comment/whitespace, applied to `self.input`). -/
def skipInput (s : List Char) : List Char :=
  skipGo s.length s

/-- `parsing::literal::boolean`: `alt((value(false, tag("false")), value(true, tag("true"))))`. -/
def boolean (s : List Char) : Option (Bool × List Char) :=
  if "false".toList.isPrefixOf s then some (false, s.drop 5)
  else if "true".toList.isPrefixOf s then some (true, s.drop 4)
  else none

/-- `parsing::literal::null`: `value((), tag("null"))`. -/
def null (s : List Char) : Option (Unit × List Char) :=
  if "null".toList.isPrefixOf s then some ((), s.drop 4) else none

/-- Character class of the digit-group body: after the leading digit the
`many1(terminated(one_of "0123456789", many0(char '_')))` loop consumes
exactly the maximal run of digits and underscores. -/
def isDigitOrUnderscore (c : Char) : Bool :=
  c.isDigit || c == '_'

/-- The recognizer part of `parsing::literal::integer`:
`recognize(pair(opt(char '-'), many1(terminated(one_of digits, many0(char '_')))))`.
Returns `(recognized text, rest)`. -/
def integerScan (s : List Char) : Option (List Char × List Char) :=
  match s with
  | '-' :: r =>
    (match r with
     | c :: _ =>
       if c.isDigit then
         some ('-' :: r.takeWhile isDigitOrUnderscore, r.dropWhile isDigitOrUnderscore)
       else none
     | [] => none)
  | c :: _ =>
    if c.isDigit then
      some (s.takeWhile isDigitOrUnderscore, s.dropWhile isDigitOrUnderscore)
    else none
  | [] => none

/-- Numeric value of a digit list (underscores already removed). -/
def digitsVal (l : List Char) : Nat :=
  l.foldl (fun a c => a * 10 + (c.toNat - 48)) 0

/-- `T::from_str(&str::replace(out, "_", ""))` for an integer type: the sign
and digit value of the recognized text. -/
def intVal (rec : List Char) : Int :=
  match rec with
  | '-' :: r => -(digitsVal (r.filter Char.isDigit) : Int)
  | _ => (digitsVal (rec.filter Char.isDigit) : Int)

/-- `parsing::literal::integer::<T>` where `T` has range `[lo, hi]`
(`map_res` fails, hence the parser fails, when `from_str` overflows). -/
def integer (lo hi : Int) (s : List Char) : Option (Int × List Char) :=
  match integerScan s with
  | some (rec, rest) =>
    let v := intVal rec
    if lo ≤ v ∧ v ≤ hi then some (v, rest) else none
  | none => none

def i64Lo : Int := -(2 ^ 63)

def i64Hi : Int := 2 ^ 63 - 1

def u64Hi : Int := 2 ^ 64 - 1

/-- `integer::<i64>` as used inside the float recognizer: returns the
recognized text (needed by `recognize`) rather than the value. -/
def i64scan (s : List Char) : Option (List Char × List Char) :=
  match integerScan s with
  | some (rec, rest) =>
    if i64Lo ≤ intVal rec ∧ intVal rec ≤ i64Hi then some (rec, rest) else none
  | none => none

/-- Exact decimal value `mant * 10 ^ exp10`, the model of an `f32`/`f64`
produced by `from_str`.  The claims only evaluate floats on literals whose
values are exactly representable, so the exact-decimal model is faithful
there; representation is the canonical one produced by `decOfStr`. -/
structure FloatVal where
  mant : Int
  exp10 : Int
deriving DecidableEq, Repr

/-- Interpretation of a `FloatVal` as a rational. -/
def FloatVal.toRat (f : FloatVal) : ℚ :=
  (f.mant : ℚ) * 10 ^ f.exp10

/-- The success/value behaviour of Rust `f64::from_str`/`f32::from_str` on the
recognized text: `[+-]? digits? ('.' digits?)? ([eE] [+-]? digits)?` with at
least one mantissa digit and nothing left over (underscores and stray signs
make it fail).  Infinity/NaN spellings can never be produced by the
recognizer, so they are not modelled. -/
def decOfStr (s : List Char) : Option FloatVal :=
  let (sgn, s1) : Int × List Char :=
    match s with
    | '-' :: r => (-1, r)
    | '+' :: r => (1, r)
    | _ => (1, s)
  let ip := s1.takeWhile Char.isDigit
  let s2 := s1.dropWhile Char.isDigit
  let (fp, s3) : List Char × List Char :=
    match s2 with
    | '.' :: r => (r.takeWhile Char.isDigit, r.dropWhile Char.isDigit)
    | _ => ([], s2)
  if ip.isEmpty && fp.isEmpty then none
  else
    let mant : Int := sgn * (digitsVal (ip ++ fp) : Int)
    match s3 with
    | [] => some ⟨mant, -(fp.length : Int)⟩
    | e :: r =>
      if e == 'e' || e == 'E' then
        let (esgn, r1) : Int × List Char :=
          match r with
          | '+' :: t => (1, t)
          | '-' :: t => (-1, t)
          | _ => (1, r)
        let ed := r1.takeWhile Char.isDigit
        if ed.isEmpty then none
        else if (r1.dropWhile Char.isDigit).isEmpty then
          some ⟨mant, esgn * (digitsVal ed : Int) - (fp.length : Int)⟩
        else none
      else none

/-- The optional-sign exponent parser inside float case one/two:
`tuple((one_of "eE", opt(one_of "+-"), integer::<i64>))`.  Returns the
recognized text and the rest; `none` when the whole tuple fails. -/
def expScan (s : List Char) : Option (List Char × List Char) :=
  match s with
  | e :: t =>
    if e == 'e' || e == 'E' then
      match t with
      | c :: t2 =>
        if c == '+' || c == '-' then
          match i64scan t2 with
          | some (rec, r2) => some (e :: c :: rec, r2)
          | none => none
        else
          match i64scan t with
          | some (rec, r2) => some (e :: rec, r2)
          | none => none
      | [] => none
    else none
  | [] => none

/-- Float case one: `.42` with optional exponent
(`recognize(tuple((char '.', integer::<i64>, opt(exponent))))`). -/
def floatCase1 (s : List Char) : Option (List Char × List Char) :=
  match s with
  | '.' :: r =>
    (match i64scan r with
     | some (rec1, r1) =>
       (match expScan r1 with
        | some (rec2, r2) => some ('.' :: rec1 ++ rec2, r2)
        | none => some ('.' :: rec1, r1))
     | none => none)
  | _ => none

/-- Float case two: `42e42` / `42.42e42`
(`recognize(tuple((integer, opt(preceded('.', integer)), one_of "eE", opt sign, integer)))`). -/
def floatCase2 (s : List Char) : Option (List Char × List Char) :=
  match i64scan s with
  | some (rec1, r1) =>
    let (recF, r2) : List Char × List Char :=
      match r1 with
      | '.' :: t =>
        (match i64scan t with
         | some (recf, rf) => ('.' :: recf, rf)
         | none => ([], r1))
      | _ => ([], r1)
    (match expScan r2 with
     | some (recE, r3) => some (rec1 ++ recF ++ recE, r3)
     | none => none)
  | none => none

/-- Float case three: `42.` / `42.42`
(`recognize(tuple((integer, char '.', opt(integer))))`). -/
def floatCase3 (s : List Char) : Option (List Char × List Char) :=
  match i64scan s with
  | some (rec1, r1) =>
    (match r1 with
     | '.' :: t =>
       (match i64scan t with
        | some (recf, rf) => some (rec1 ++ '.' :: recf, rf)
        | none => some (rec1 ++ ['.'], t))
     | _ => none)
  | none => none

/-- `parsing::literal::float::<T>`: `map_res(alt((case1, case2, case3, recognize(integer))), T::from_str)`.
`alt` commits to the first recognizer that matches; a `from_str` failure on
the recognized text fails the whole parser. -/
def float (s : List Char) : Option (FloatVal × List Char) :=
  let recog : Option (List Char × List Char) :=
    match floatCase1 s with
    | some x => some x
    | none =>
      match floatCase2 s with
      | some x => some x
      | none =>
        match floatCase3 s with
        | some x => some x
        | none => i64scan s
  match recog with
  | some (rec, rest) =>
    (match decOfStr rec with
     | some v => some (v, rest)
     | none => none)
  | none => none

def alphaChars : List Char := "qwertyuiopasdfghjklzxcvbnm_".toList

def alnumChars : List Char := "qwertyuiopasdfghjklzxcvbnm_1234567890".toList

def isIdentStart (c : Char) : Bool := alphaChars.contains c

def isIdentChar (c : Char) : Bool := alnumChars.contains c

/-- `parsing::identifier`: `recognize(pair(many1(one_of ALPHA), many0(one_of ALPHANUM)))`.
`many1` greedily takes the maximal `ALPHA` run, `many0` then the maximal
`ALPHANUM` run.  Returns `(recognized, rest)`. -/
def identifier (s : List Char) : Option (List Char × List Char) :=
  match s with
  | c :: _ =>
    if isIdentStart c then
      let a := s.takeWhile isIdentStart
      let r1 := s.dropWhile isIdentStart
      some (a ++ r1.takeWhile isIdentChar, r1.dropWhile isIdentChar)
    else none
  | [] => none

/-- `parsing::delimiter`: `one_of ":(){}[]"`. -/
def delimiter (s : List Char) : Option (Char × List Char) :=
  match s with
  | c :: r =>
    if [':', '(', ')', '{', '}', '[', ']'].contains c then some (c, r) else none
  | [] => none

inductive StrErr where
  | notAString
  | unclosed
deriving DecidableEq, Repr

/-- Per-character rewrite applied while accumulating string content: raw line
breaks become their two-character escape form, everything else is kept. -/
def rwChar (c : Char) : List Char :=
  if c = '\n' then ['\\', 'n'] else if c = '\r' then ['\\', 'r'] else [c]

/-- The body of the `for` loop in `parsing::string::parse_string`, after the
first character (`first = false`): arguments are the escape flag, the
accumulated content `s`, and the remaining characters.  On the closing quote
the function returns `(rest, content)`. -/
def parseStringGo : Bool → List Char → List Char → Except StrErr (List Char × List Char)
  | _, _, [] => .error .unclosed
  | escp, acc, c :: rest =>
    if c = '\\' ∧ escp = false then
      parseStringGo true (acc ++ rwChar c) rest
    else if c = '"' ∧ escp = false then
      .ok (rest, acc)
    else
      parseStringGo (if rustWhitespace c then escp else false) (acc ++ rwChar c) rest

/-- `parsing::string::parse_string`.  The first iteration of the Rust loop
(`first = true`) rejects a non-quote first character, never terminates, does
not append, and clears the escape flag (a quote is not whitespace); the
wrapper performs exactly that step.  An empty input falls out of the loop,
hence "unclosed string". -/
def parse_string (input : List Char) : Except StrErr (List Char × List Char) :=
  match input with
  | [] => .error .unclosed
  | c :: rest =>
    if c = '"' then parseStringGo false [] rest
    else .error .notAString

/-- `escape8259::unescape` (external crate, modelled from RFC 8259 string
unescaping): the eight simple escapes plus `\uXXXX` with surrogate-pair
combination; a lone or malformed escape fails.  Other characters pass
through. -/
def hexVal (c : Char) : Option Nat :=
  if c.isDigit then some (c.toNat - 48)
  else if 'a' ≤ c ∧ c ≤ 'f' then some (c.toNat - 87)
  else if 'A' ≤ c ∧ c ≤ 'F' then some (c.toNat - 55)
  else none

def hex4 (a b c d : Char) : Option Nat :=
  match hexVal a, hexVal b, hexVal c, hexVal d with
  | some x, some y, some z, some w => some (((x * 16 + y) * 16 + z) * 16 + w)
  | _, _, _, _ => none

def unescape : List Char → Option (List Char)
  | [] => some []
  | '\\' :: t =>
    match t with
    | '"' :: r => (unescape r).map ('"' :: ·)
    | '\\' :: r => (unescape r).map ('\\' :: ·)
    | '/' :: r => (unescape r).map ('/' :: ·)
    | 'b' :: r => (unescape r).map (Char.ofNat 0x08 :: ·)
    | 'f' :: r => (unescape r).map (Char.ofNat 0x0C :: ·)
    | 'n' :: r => (unescape r).map ('\n' :: ·)
    | 'r' :: r => (unescape r).map ('\r' :: ·)
    | 't' :: r => (unescape r).map ('\t' :: ·)
    | 'u' :: a :: b :: c :: d :: r =>
      (match hex4 a b c d with
       | some n =>
         if 0xD800 ≤ n ∧ n < 0xDC00 then
           match r with
           | '\\' :: 'u' :: a2 :: b2 :: c2 :: d2 :: r2 =>
             (match hex4 a2 b2 c2 d2 with
              | some m =>
                if 0xDC00 ≤ m ∧ m < 0xE000 then
                  (unescape r2).map
                    (Char.ofNat (0x10000 + (n - 0xD800) * 0x400 + (m - 0xDC00)) :: ·)
                else none
              | none => none)
           | _ => none
         else if 0xDC00 ≤ n ∧ n < 0xE000 then none
         else (unescape r).map (Char.ofNat n :: ·)
       | none => none)
    | _ => none
  | c :: t => (unescape t).map (c :: ·)

/-- `parsing::string::string`: `parse_string` then `unescape` of the content.
Both failure levels collapse to a scan failure at the deserializer level, so
the combined scanner is an `Option`. -/
def string (input : List Char) : Option (List Char × List Char) :=
  match parse_string input with
  | .ok (rest, content) =>
    (match unescape content with
     | some u => some (u, rest)
     | none => none)
  | .error _ => none

/-- The deserializer state (`Deserializer<'de>` in src/de.rs): the original
full text `begin`, the optional virtual opening/closing delimiters, and the
remaining input. -/
structure Deserializer where
  begin : List Char
  pre : Option Char
  input : List Char
  post : Option Char
deriving DecidableEq, Repr

/-- `JaclDeError`: line, column and recovered source line, computed eagerly
by `JaclDeError::new`. -/
structure JaclDeError where
  line : Nat
  col : Nat
  line_str : List Char
deriving DecidableEq, Repr

/-- The first loop of `JaclDeError::new`: count characters of `begin` up to
byte offset `index`, tracking line and column. -/
def lineColGo (index : Nat) : List Char → Nat → Nat → Nat → Nat × Nat
  | [], _, col, line => (line, col)
  | c :: r, curr, col, line =>
    if curr = index then (line, col)
    else if c = '\n' then lineColGo index r (curr + 1) 0 (line + 1)
    else lineColGo index r (curr + 1) (col + 1) line

/-- The second loop of `JaclDeError::new`: collect the source line starting
at `index - col`, up to and including a newline. -/
def lineStrGo (start : Nat) : List Char → Nat → List Char → List Char
  | [], _, acc => acc
  | c :: r, curr, acc =>
    if start ≤ curr then
      let acc' := acc ++ [c]
      if c = '\n' then acc' else lineStrGo start r (curr + 1) acc'
    else lineStrGo start r (curr + 1) acc

/-- `JaclDeError::new(d)`: `rfind` the residual input inside `begin` (the
`.expect` there is a panic, modelled as the outer error), then compute
line/column and the displayed line. -/
def jaclNew (d : Deserializer) : Except String JaclDeError :=
  match rfindIdx d.begin d.input with
  | none => .error "There is a bug in the parser!"
  | some index =>
    let lc := lineColGo index d.begin 0 0 1
    .ok ⟨lc.1, lc.2, lineStrGo (index - lc.2) d.begin 0 []⟩

/-- The caret marker synthesized by `Display for JaclDeError`:
`"-".repeat(col)` followed by `"^\n"`. -/
def displayMarker (e : JaclDeError) : List Char :=
  List.replicate e.col '-' ++ ['^', '\n']

/-- Result of a deserializer method: the outer `Except String` is a Rust
panic (aborts everything), the inner `Except JaclDeError` is a returned
error Result, paired with the post-call state (errors persist state, as with
`&mut self`). -/
abbrev DeResult (α : Type) : Type :=
  Except String (Except JaclDeError α × Deserializer)

/-- Sequencing of deserializer calls (panics propagate). -/
def dbind {α β : Type} (x : DeResult α)
    (f : Except JaclDeError α × Deserializer → DeResult β) : DeResult β :=
  match x with
  | .error p => .error p
  | .ok r => f r

/-- The `?` operator: a returned error short-circuits, keeping the state. -/
def okbind {α β : Type} (x : DeResult α) (f : α → Deserializer → DeResult β) :
    DeResult β :=
  dbind x fun r =>
    match r with
    | (.error e, d) => .ok (.error e, d)
    | (.ok v, d) => f v d

/-- `Deserializer::skip_non_tokens`: panics (`unreachable!`) when the virtual
opening delimiter has not been consumed, otherwise applies the comment and
whitespace skip to the input. -/
def skip_non_tokens (d : Deserializer) : DeResult Unit :=
  if d.pre.isSome then
    .error "skip_non_tokens: pre has not been consumed"
  else .ok (.ok (), { d with input := skipInput d.input })

/-- Common shape of `parse_null` / `parse_bool` / `parse_int` / `parse_float`
/ `parse_string` / `parse_identifier`: leading skip, scan (the error is
created at the post-skip state and the input advances only on success),
trailing skip, then return the saved result. -/
def parseToken {α : Type} (scan : List Char → Option (α × List Char))
    (d : Deserializer) : DeResult α :=
  dbind (skip_non_tokens d) fun (_, d1) =>
    match scan d1.input with
    | some (v, rest) =>
      dbind (skip_non_tokens { d1 with input := rest }) fun (_, d2) =>
        .ok (.ok v, d2)
    | none =>
      match jaclNew d1 with
      | .error p => .error p
      | .ok e =>
        dbind (skip_non_tokens d1) fun (_, d2) => .ok (.error e, d2)

def Deserializer.parse_null (d : Deserializer) : DeResult Unit :=
  parseToken null d

def Deserializer.parse_bool (d : Deserializer) : DeResult Bool :=
  parseToken boolean d

/-- `parse_int::<T>` for a target with range `[lo, hi]`. -/
def Deserializer.parse_int (lo hi : Int) (d : Deserializer) : DeResult Int :=
  parseToken (integer lo hi) d

/-- `parse_float::<T>`: float syntax acceptance does not depend on the
target width, and the value is modelled exactly (see `decOfStr`). -/
def Deserializer.parse_float (d : Deserializer) : DeResult FloatVal :=
  parseToken float d

def Deserializer.parse_string (d : Deserializer) : DeResult (List Char) :=
  parseToken string d

def Deserializer.parse_identifier (d : Deserializer) : DeResult (List Char) :=
  parseToken identifier d

/-- `Deserializer::parse_delim`: the virtual opening delimiter is consumed
first (without any skipping); on empty input the virtual closing delimiter
is consumed (again without trailing skip); otherwise a delimiter is scanned
with leading and trailing skips. -/
def Deserializer.parse_delim (d : Deserializer) : DeResult Char :=
  match d.pre with
  | some c => .ok (.ok c, { d with pre := none })
  | none =>
    dbind (skip_non_tokens d) fun (_, d1) =>
      if d1.input.isEmpty then
        match d1.post with
        | some c => .ok (.ok c, { d1 with post := none })
        | none =>
          match jaclNew d1 with
          | .error p => .error p
          | .ok e => .ok (.error e, d1)
      else
        match delimiter d1.input with
        | some (c, rest) =>
          dbind (skip_non_tokens { d1 with input := rest }) fun (_, d2) =>
            .ok (.ok c, d2)
        | none =>
          match jaclNew d1 with
          | .error p => .error p
          | .ok e =>
            dbind (skip_non_tokens d1) fun (_, d2) => .ok (.error e, d2)

/-- `Deserializer::next_char`: peek the virtual opening delimiter, the input
head, or the virtual closing delimiter; no state change. -/
def Deserializer.next_char (d : Deserializer) : Except String (Except JaclDeError Char) :=
  match d.pre with
  | some c => .ok (.ok c)
  | none =>
    match d.input.head? with
    | some c => .ok (.ok c)
    | none =>
      match d.post with
      | some c => .ok (.ok c)
      | none =>
        match jaclNew d with
        | .error p => .error p
        | .ok e => .ok (.error e)

/-- `Deserializer::try_parse_literal`: bool, f32 float, i64 integer, string,
null, in that order; failures are swallowed but their state changes persist. -/
def Deserializer.try_parse_literal (d : Deserializer) : Except String (Bool × Deserializer) :=
  match d.parse_bool with
  | .error p => .error p
  | .ok (.ok _, d') => .ok (true, d')
  | .ok (.error _, d1) =>
    match d1.parse_float with
    | .error p => .error p
    | .ok (.ok _, d') => .ok (true, d')
    | .ok (.error _, d2) =>
      match d2.parse_int i64Lo i64Hi with
      | .error p => .error p
      | .ok (.ok _, d') => .ok (true, d')
      | .ok (.error _, d3) =>
        match d3.parse_string with
        | .error p => .error p
        | .ok (.ok _, d') => .ok (true, d')
        | .ok (.error _, d4) =>
          match d4.parse_null with
          | .error p => .error p
          | .ok (.ok _, d') => .ok (true, d')
          | .ok (.error _, d5) => .ok (false, d5)

/-- `Deserializer::from_str`: the root-shape prober.  It runs on a throwaway
state and returns a fresh deserializer over the full input with the chosen
virtual bracket pair. -/
def Deserializer.from_str (input : List Char) : Except String Deserializer :=
  let d0 : Deserializer := ⟨input, none, input, none⟩
  match d0.try_parse_literal with
  | .error p => .error p
  | .ok (true, d1) =>
    (match d1.try_parse_literal with
     | .error p => .error p
     | .ok (true, _) => .ok ⟨input, some '[', input, some ']'⟩
     | .ok (false, d2) =>
       match d2.parse_delim with
       | .error p => .error p
       | .ok (.ok ':', _) => .ok ⟨input, some '{', input, some '}'⟩
       | .ok (.ok _, _) => .ok ⟨input, none, input, none⟩
       | .ok (.error _, _) => .ok ⟨input, none, input, none⟩)
  | .ok (false, d1) =>
    (match d1.parse_identifier with
     | .error p => .error p
     | .ok (.ok _, _) => .ok ⟨input, some '(', input, some ')'⟩
     | .ok (.error _, _) => .ok ⟨input, none, input, none⟩)

/-- The crate-level `from_str`: probe the root shape, run the decoder, then
require the remaining input to be empty. -/
def from_str {α : Type} (dec : Deserializer → DeResult α) (s : List Char) :
    Except String (Except JaclDeError α) :=
  match Deserializer.from_str s with
  | .error p => .error p
  | .ok d =>
    match dec d with
    | .error p => .error p
    | .ok (.error e, _) => .ok (.error e)
    | .ok (.ok v, d') =>
      if d'.input.isEmpty then .ok (.ok v)
      else
        match jaclNew d' with
        | .error p => .error p
        | .ok e => .ok (.error e)

/-- The `DataType` discriminator of the `Separated` container frame. -/
inductive DataType where
  | STRUCT
  | HASHMAP
  | SEQ
deriving DecidableEq, Repr

/-- `Separated::size_hint` (the `MapAccess` arity report): fixed arity 0 for
struct frames, unknown for map frames. -/
def size_hint : DataType → Option Nat
  | .STRUCT => some 0
  | .HASHMAP => none
  | .SEQ => none

/-- `Separated::next_key_seed` for a map/struct frame: attempt one delimiter;
the frame terminator yields `none`; any other successfully read delimiter is
an immediate error at the post-delimiter state; if no delimiter could be
read, decode one key with `seed`. -/
def next_key_seed {κ : Type} (seed : Deserializer → DeResult κ) (dt : DataType)
    (d : Deserializer) : DeResult (Option κ) :=
  match d.parse_delim with
  | .error p => .error p
  | .ok (.ok val, d') =>
    if (val = '}' ∧ dt = .HASHMAP) ∨ (val = ')' ∧ dt = .STRUCT) then
      .ok (.ok none, d')
    else
      (match jaclNew d' with
       | .error p => .error p
       | .ok e => .ok (.error e, d'))
  | .ok (.error _, d') =>
    okbind (seed d') fun k dk => .ok (.ok (some k), dk)

/-- `Separated::next_value_seed`: require a `:` delimiter, then decode the
value; a failed or mismatched delimiter is an error at the current state. -/
def next_value_seed {α : Type} (seed : Deserializer → DeResult α)
    (d : Deserializer) : DeResult α :=
  match d.parse_delim with
  | .error p => .error p
  | .ok (.ok val, d') =>
    if val = ':' then seed d'
    else
      (match jaclNew d' with
       | .error p => .error p
       | .ok e => .ok (.error e, d'))
  | .ok (.error _, d') =>
    (match jaclNew d' with
     | .error p => .error p
     | .ok e => .ok (.error e, d'))

/-- The `SeqAccess` iteration driven by a `Vec`-style visitor
(`while let Some(e) = seq.next_element_seed(..)`): peek `next_char`; `]`
consumes the delimiter and stops; otherwise decode one element.  The fuel
only bounds the loop; every iteration consumes input, so the fuel chosen at
the call sites is always sufficient. -/
def seqLoop {α : Type} (elem : Deserializer → DeResult α) :
    Nat → Deserializer → DeResult (List α)
  | 0, _ => .error "out of fuel"
  | fuel + 1, d =>
    match d.next_char with
    | .error p => .error p
    | .ok (.error e) => .ok (.error e, d)
    | .ok (.ok c) =>
      if c = ']' then
        okbind d.parse_delim fun _ d' => .ok (.ok [], d')
      else
        okbind (elem d) fun v d' =>
          okbind (seqLoop (fun dd => elem dd) fuel d') fun vs d'' =>
            .ok (.ok (v :: vs), d'')

/-- The `MapAccess` iteration driven by a `HashMap`-style visitor
(`while let Some((k, v)) = map.next_entry()`), collecting entries in
document order. -/
def mapLoop {κ α : Type} (keyM : Deserializer → DeResult κ)
    (valM : Deserializer → DeResult α) (dt : DataType) :
    Nat → Deserializer → DeResult (List (κ × α))
  | 0, _ => .error "out of fuel"
  | fuel + 1, d =>
    okbind (next_key_seed keyM dt d) fun k? d1 =>
      match k? with
      | none => .ok (.ok [], d1)
      | some k =>
        okbind (next_value_seed valM d1) fun v d2 =>
          okbind (mapLoop (fun dd => keyM dd) (fun dd => valM dd) dt fuel d2)
            fun rest d3 => .ok (.ok ((k, v) :: rest), d3)

/-- `HashMap::insert` semantics folded over the entry list: a later entry
replaces an earlier one with the same key (entries are kept in first-insert
order; the claims only compare maps with distinct keys). -/
def insertEntry {α : Type} : List (List Char × α) → List Char → α → List (List Char × α)
  | [], k, v => [(k, v)]
  | (k0, v0) :: rest, k, v =>
    if k0 = k then (k0, v) :: rest else (k0, v0) :: insertEntry rest k v

def hashMapOfEntries {α : Type} (l : List (List Char × α)) : List (List Char × α) :=
  l.foldl (fun m kv => insertEntry m kv.1 kv.2) []

/-- `deserialize_seq`: require a `[` delimiter, then iterate. -/
def deSeq {α : Type} (elem : Deserializer → DeResult α) (d : Deserializer) :
    DeResult (List α) :=
  okbind d.parse_delim fun c d' =>
    if c = '[' then seqLoop elem (d'.input.length + 2) d'
    else
      (match jaclNew d' with
       | .error p => .error p
       | .ok e => .ok (.error e, d'))

/-- `deserialize_map` driven by a `HashMap<String, _>`-style visitor:
require `{`, iterate entries, fold with insert semantics. -/
def deMap {α : Type} (valM : Deserializer → DeResult α) (d : Deserializer) :
    DeResult (List (List Char × α)) :=
  okbind d.parse_delim fun c d' =>
    if c = '{' then
      okbind (mapLoop Deserializer.parse_string valM .HASHMAP (d'.input.length + 2) d')
        fun entries d'' => .ok (.ok (hashMapOfEntries entries), d'')
    else
      (match jaclNew d' with
       | .error p => .error p
       | .ok e => .ok (.error e, d'))

/-- `bool::deserialize` → `deserialize_bool` → `visit_bool` (identity). -/
def deBool (d : Deserializer) : DeResult Bool :=
  d.parse_bool

/-- `i64::deserialize` → `deserialize_i64` → `visit_i64` (identity). -/
def deI64 (d : Deserializer) : DeResult Int :=
  d.parse_int i64Lo i64Hi

/-- `usize`/`u64` deserialize → `deserialize_u64` (64-bit platform). -/
def deU64 (d : Deserializer) : DeResult Int :=
  d.parse_int 0 u64Hi

/-- `f64::deserialize` → `deserialize_f64` → `visit_f64` (identity). -/
def deF64 (d : Deserializer) : DeResult FloatVal :=
  d.parse_float

/-- `String::deserialize` → `deserialize_string` → `visit_string` (identity). -/
def deString (d : Deserializer) : DeResult (List Char) :=
  d.parse_string

/-- `structs.rs` `Number`. -/
inductive SNumber where
  | Int (i : Int)
  | Flt (f : FloatVal)
deriving DecidableEq, Repr

/-- `structs.rs` `Literal`. -/
inductive SLiteral where
  | Number (n : SNumber)
  | String (s : List Char)
  | Bool (b : Bool)
deriving DecidableEq, Repr

/-- `structs.rs` `Value` (maps are entry lists in insert order, see
`hashMapOfEntries`). -/
inductive SValue where
  | Literal (l : SLiteral)
  | Map (m : List (List Char × SValue))
  | Seq (vs : List SValue)
deriving Repr

/-- `number.rs` `Number`. -/
inductive NNumber where
  | Integer (i : Int)
  | Float (f : FloatVal)
deriving DecidableEq, Repr

/-- `Value::deserialize` → `deserialize_any(ValueVisitor)`.  The dispatch on
the next significant character is that of `deserialize_any`; `ValueVisitor`
provides `visit_bool/i64/f64/str/string/seq/map`, while the serde default
`visit_none`/`visit_some` produce `Error::custom`, which in this crate is
`unreachable!()` — a panic.  The fuel bounds only the value-nesting depth
and the loops; it is chosen at the call sites to exceed the input length. -/
def deValue : Nat → Deserializer → DeResult SValue
  | 0, _ => .error "out of fuel"
  | fuel + 1, d =>
    let d1 := if d.pre.isNone then { d with input := skipInput d.input } else d
    match d1.next_char with
    | .error p => .error p
    | .ok (.error e) => .ok (.error e, d1)
    | .ok (.ok c) =>
      if c = 'n' then
        -- deserialize_option: skip (panics when pre is unconsumed), then
        -- either default visit_none or default visit_some, both Error::custom
        dbind (skip_non_tokens d1) fun (_, _) =>
          .error "JaclDeError::custom is unreachable!"
      else if c = 't' ∨ c = 'f' then
        okbind d1.parse_bool fun b d2 => .ok (.ok (.Literal (.Bool b)), d2)
      else if c = '"' then
        okbind d1.parse_string fun s d2 => .ok (.ok (.Literal (.String s)), d2)
      else if c = '-' ∨ c.isDigit then
        match integer i64Lo i64Hi d1.input with
        | some (_, rest) =>
          (match rest.head? with
           | some '.' =>
             okbind d1.parse_float fun f d2 =>
               .ok (.ok (.Literal (.Number (.Flt f))), d2)
           | _ =>
             okbind (d1.parse_int i64Lo i64Hi) fun i d2 =>
               .ok (.ok (.Literal (.Number (.Int i))), d2))
        | none =>
          (match jaclNew d1 with
           | .error p => .error p
           | .ok e => .ok (.error e, d1))
      else if c = '[' then
        okbind (deSeq (fun dd => deValue fuel dd) d1) fun vs d2 =>
          .ok (.ok (.Seq vs), d2)
      else if c = '{' then
        okbind (deMap (fun dd => deValue fuel dd) d1) fun m d2 =>
          .ok (.ok (.Map m), d2)
      else if c = '(' then
        -- deserialize_struct: require '(' then iterate a STRUCT frame;
        -- ValueVisitor::visit_map decodes keys as String
        okbind d1.parse_delim fun cd d2 =>
          if cd = '(' then
            okbind (mapLoop Deserializer.parse_string (fun dd => deValue fuel dd)
                .STRUCT (d2.input.length + 2) d2) fun entries d3 =>
              .ok (.ok (.Map (hashMapOfEntries entries)), d3)
          else
            (match jaclNew d2 with
             | .error p => .error p
             | .ok e => .ok (.error e, d2))
      else
        (match jaclNew d1 with
         | .error p => .error p
         | .ok e => .ok (.error e, d1))

/-- `number.rs::Number::deserialize` → `deserialize_any(NumberVisitor)`.
`NumberVisitor` implements only the numeric `visit_*`; every other visitor
hook falls back to the serde default, which calls `Error::custom`, i.e.
`unreachable!()` — a panic.  Hence only the integer/float dispatch branch
can produce a value. -/
def deNumber (d : Deserializer) : DeResult NNumber :=
  let d1 := if d.pre.isNone then { d with input := skipInput d.input } else d
  match d1.next_char with
  | .error p => .error p
  | .ok (.error e) => .ok (.error e, d1)
  | .ok (.ok c) =>
    if c = 'n' then
      dbind (skip_non_tokens d1) fun (_, _) =>
        .error "JaclDeError::custom is unreachable!"
    else if c = 't' ∨ c = 'f' then
      okbind d1.parse_bool fun _ _ =>
        .error "JaclDeError::custom is unreachable!"
    else if c = '"' then
      okbind d1.parse_string fun _ _ =>
        .error "JaclDeError::custom is unreachable!"
    else if c = '-' ∨ c.isDigit then
      match integer i64Lo i64Hi d1.input with
      | some (_, rest) =>
        (match rest.head? with
         | some '.' =>
           okbind d1.parse_float fun f d2 => .ok (.ok (.Float f), d2)
         | _ =>
           okbind (d1.parse_int i64Lo i64Hi) fun i d2 => .ok (.ok (.Integer i), d2))
      | none =>
        (match jaclNew d1 with
         | .error p => .error p
         | .ok e => .ok (.error e, d1))
    else if c = '[' ∨ c = '{' ∨ c = '(' then
      okbind d1.parse_delim fun cd d2 =>
        if (c = '[' ∧ cd = '[') ∨ (c = '{' ∧ cd = '{') ∨ (c = '(' ∧ cd = '(') then
          .error "JaclDeError::custom is unreachable!"
        else
          (match jaclNew d2 with
           | .error p => .error p
           | .ok e => .ok (.error e, d2))
    else
      (match jaclNew d1 with
       | .error p => .error p
       | .ok e => .ok (.error e, d1))

/-- `from_str::<bool>`. -/
def fromStrBool (s : List Char) : Except String (Except JaclDeError Bool) :=
  from_str deBool s

/-- `from_str::<Vec<i64>>`. -/
def fromStrVecI64 (s : List Char) : Except String (Except JaclDeError (List Int)) :=
  from_str (deSeq deI64) s

/-- `from_str::<Vec<usize>>`. -/
def fromStrVecU64 (s : List Char) : Except String (Except JaclDeError (List Int)) :=
  from_str (deSeq deU64) s

/-- `from_str::<HashMap<String, i64>>`. -/
def fromStrMapI64 (s : List Char) :
    Except String (Except JaclDeError (List (List Char × Int))) :=
  from_str (deMap deI64) s

/-- `from_str::<f64>`. -/
def fromStrF64 (s : List Char) : Except String (Except JaclDeError FloatVal) :=
  from_str deF64 s

/-- `from_str::<Value>` (structs.rs's schema-less consumer). -/
def fromStrValue (s : List Char) : Except String (Except JaclDeError SValue) :=
  from_str (fun d => deValue (d.input.length + 2) d) s

/-- `from_str::<Number>` (number.rs's shape-free numeric consumer). -/
def fromStrNumber (s : List Char) : Except String (Except JaclDeError NNumber) :=
  from_str deNumber s

/-! ## Characterizations used by the amended claims -/

/-- The escape-flag update of the string scanner for a non-terminating
character, as amended: set by a backslash when clear, kept across
whitespace, cleared by any other character. -/
def escStep (e : Bool) (c : Char) : Bool :=
  if c = '\\' ∧ e = false then true
  else if rustWhitespace c then e
  else false

/-- Index of the first closing quote that the scanner treats as unescaped,
tracking the escape flag with `escStep` (amended-claim characterization). -/
def closeIdx : Bool → List Char → Option Nat
  | _, [] => none
  | e, c :: r =>
    if c = '"' ∧ e = false then some 0
    else (closeIdx (escStep e c) r).map (· + 1)

/-- Raw line breaks rewritten to their two-character escape form. -/
def rwFlat (l : List Char) : List Char :=
  (l.map rwChar).flatten

/-- Declarative description of `parse_string` per the amended claim: from an
opening quote, content is the newline-rewritten prefix up to the first
unescaped closing quote (`closeIdx`), the residual starts after it;
"unclosed string" when no such quote exists (also for empty input), "not a
string" when the input starts with any other character. -/
def stringScanSpec (input : List Char) : Except StrErr (List Char × List Char) :=
  match input with
  | [] => .error .unclosed
  | c :: rest =>
    if c = '"' then
      match closeIdx false rest with
      | some j => .ok (rest.drop (j + 1), rwFlat (rest.take j))
      | none => .error .unclosed
    else .error .notAString

/-- Declarative description of `identifier` per the amended claim: the input
must start with a lowercase-alphabetic or underscore character, and the
recognized text is the maximal prefix of alphanumeric/underscore characters. -/
def identSpec (s : List Char) : Option (List Char × List Char) :=
  match s with
  | c :: _ =>
    if isIdentStart c then some (s.takeWhile isIdentChar, s.dropWhile isIdentChar)
    else none
  | [] => none

/-- `true` when the list nowhere contains the adjacent pair `*/`. -/
def pairFree : List Char → Bool
  | [] => true
  | [_] => true
  | x :: y :: r => !(x == '*' && y == '/') && pairFree (y :: r)

/-- A well-formed comment token: a line comment together with its
terminating newline, or a non-nesting block comment. -/
inductive WFComment : List Char → Prop
  | eol (b : List Char) (h : '\n' ∉ b) : WFComment ('/' :: '/' :: (b ++ ['\n']))
  | block (b : List Char) (h : pairFree b = true) : WFComment ('/' :: '*' :: (b ++ ['*', '/']))

/-! ## Helper lemmas -/

theorem pairFree_tail {x : Char} {r : List Char} (h : pairFree (x :: r) = true) :
    pairFree r = true := by
  cases r with
  | nil => rfl
  | cons y r' =>
    have := h
    simp only [pairFree, Bool.and_eq_true] at this
    exact this.2

theorem findSub_eol (b s : List Char) (h : '\n' ∉ b) :
    findSub ['\n'] (b ++ '\n' :: s) = some b.length := by
  induction b with
  | nil => simp [findSub, List.isPrefixOf]
  | cons x b' ih =>
    have hx : x ≠ '\n' := fun hc => h (hc ▸ List.mem_cons_self x b')
    have hb : '\n' ∉ b' := fun hc => h (List.mem_cons_of_mem x hc)
    have hpre : (['\n'].isPrefixOf (x :: (b' ++ '\n' :: s))) = false := by
      simp [List.isPrefixOf]
      exact fun hc => hx hc.symm
    simp [findSub, hpre, ih hb]

theorem findSub_block (b s : List Char) (h : pairFree b = true) :
    findSub ['*', '/'] (b ++ '*' :: '/' :: s) = some b.length := by
  induction b with
  | nil => simp [findSub, List.isPrefixOf]
  | cons x b' ih =>
    have hpre : (['*', '/'].isPrefixOf (x :: (b' ++ '*' :: '/' :: s))) = false := by
      cases b' with
      | nil => simp [List.isPrefixOf]
      | cons y b'' =>
        cases hx : ('*' == x) with
        | false => simp [List.isPrefixOf, hx]
        | true =>
          cases hy : ('/' == y) with
          | false => simp [List.isPrefixOf, hx, hy]
          | true =>
            exfalso
            have hx' : x = '*' := (beq_iff_eq.mp hx).symm
            have hy' : y = '/' := (beq_iff_eq.mp hy).symm
            subst hx'
            subst hy'
            simp [pairFree] at h
    simp [findSub, hpre, ih (pairFree_tail h)]

theorem skipStep_eol (b s : List Char) (h : '\n' ∉ b) :
    skipStep (('/' :: '/' :: (b ++ ['\n'])) ++ s) = some s := by
  have hassoc : ('/' :: '/' :: (b ++ ['\n'])) ++ s = '/' :: '/' :: (b ++ '\n' :: s) := by
    simp
  rw [hassoc]
  have hml : multiline_comment ('/' :: '/' :: (b ++ '\n' :: s)) = none := by
    simp [multiline_comment, List.isPrefixOf]
  have hdrop : ('/' :: '/' :: (b ++ '\n' :: s)).drop (2 + b.length + 1) = s := by
    have h2 : 2 + b.length + 1 = b.length + 1 + 1 + 1 := by omega
    rw [h2, List.drop_succ_cons, List.drop_succ_cons]
    have h3 : b ++ '\n' :: s = (b ++ ['\n']) ++ s := by simp
    rw [h3]
    have hl : (b ++ ['\n']).length = b.length + 1 := by simp
    rw [← hl, List.drop_left]
  simp only [skipStep, hml]
  simp [eol_comment, List.isPrefixOf, findSub_eol b s h, hdrop]

theorem skipStep_block (b s : List Char) (h : pairFree b = true) :
    skipStep (('/' :: '*' :: (b ++ ['*', '/'])) ++ s) = some s := by
  have hassoc : ('/' :: '*' :: (b ++ ['*', '/'])) ++ s = '/' :: '*' :: (b ++ '*' :: '/' :: s) := by
    simp
  rw [hassoc]
  have hdrop : ('/' :: '*' :: (b ++ '*' :: '/' :: s)).drop (2 + b.length + 2) = s := by
    have h2 : 2 + b.length + 2 = b.length + 2 + 1 + 1 := by omega
    rw [h2, List.drop_succ_cons, List.drop_succ_cons]
    have h3 : b ++ '*' :: '/' :: s = (b ++ ['*', '/']) ++ s := by simp
    rw [h3]
    have hl : (b ++ ['*', '/']).length = b.length + 2 := by simp
    rw [← hl, List.drop_left]
  simp [skipStep, multiline_comment, List.isPrefixOf, findSub_block b s h, hdrop]

theorem dropWhile_length_le (p : Char → Bool) :
    ∀ l : List Char, (l.dropWhile p).length ≤ l.length := by
  intro l
  induction l with
  | nil => simp
  | cons c t ih =>
    by_cases h : p c = true
    · simp only [List.dropWhile_cons, h, if_true]
      exact Nat.le_trans ih (Nat.le_succ _)
    · simp [List.dropWhile_cons, h]

theorem isPrefixOf_ne_nil {pat s : List Char} (hp : pat ≠ [])
    (h : pat.isPrefixOf s = true) : s ≠ [] := by
  cases s with
  | nil =>
    cases pat with
    | nil => exact absurd rfl hp
    | cons a as => simp [List.isPrefixOf] at h
  | cons c r => exact List.cons_ne_nil c r

theorem skipStep_length {s r : List Char} (h : skipStep s = some r) :
    r.length < s.length := by
  simp only [skipStep] at h
  match hml : multiline_comment s with
  | some r' =>
    rw [hml] at h
    simp at h
    subst h
    simp only [multiline_comment] at hml
    split at hml
    case isTrue hpre =>
      match hf : findSub ['*', '/'] (s.drop 2) with
      | some i =>
        rw [hf] at hml
        simp at hml
        subst hml
        have hs : s ≠ [] := isPrefixOf_ne_nil (by simp) hpre
        have : 0 < s.length := List.length_pos.mpr hs
        simp [List.length_drop]
        omega
      | none => rw [hf] at hml; exact absurd hml (by simp)
    case isFalse => exact absurd hml (by simp)
  | none =>
    rw [hml] at h
    match hel : eol_comment s with
    | some r' =>
      rw [hel] at h
      simp at h
      subst h
      simp only [eol_comment] at hel
      split at hel
      case isTrue hpre =>
        match hf : findSub ['\n'] (s.drop 2) with
        | some i =>
          rw [hf] at hel
          simp at hel
          subst hel
          have hs : s ≠ [] := isPrefixOf_ne_nil (by simp) hpre
          have : 0 < s.length := List.length_pos.mpr hs
          simp [List.length_drop]
          omega
        | none => rw [hf] at hel; exact absurd hel (by simp)
      case isFalse => exact absurd hel (by simp)
    | none =>
      rw [hel] at h
      simp only [whitespace] at h
      split at h
      · exact absurd h (by simp)
      case h_2 x heq =>
        simp at h
        subst h
        cases s with
        | nil => simp [List.takeWhile] at heq
        | cons c t =>
          by_cases hc : isSepChar c = true
          · simp only [List.dropWhile_cons, hc, if_true, List.length_cons]
            have := dropWhile_length_le isSepChar t
            omega
          · simp [List.takeWhile_cons, hc] at heq

theorem skipGo_nil (n : Nat) : skipGo n [] = [] := by
  cases n with
  | zero => rfl
  | succ m => rfl

theorem skipGo_congr : ∀ (k : Nat) (s : List Char) (n m : Nat),
    s.length ≤ k → s.length ≤ n → s.length ≤ m → skipGo n s = skipGo m s := by
  intro k
  induction k with
  | zero =>
    intro s n m hk _ _
    have : s = [] := List.length_eq_zero.mp (Nat.le_zero.mp hk)
    subst this
    rw [skipGo_nil, skipGo_nil]
  | succ k ih =>
    intro s n m hk hn hm
    cases s with
    | nil => rw [skipGo_nil, skipGo_nil]
    | cons c t =>
      have hn1 : 0 < n := by simp at hn; omega
      have hm1 : 0 < m := by simp at hm; omega
      obtain ⟨n', rfl⟩ : ∃ n', n = n' + 1 := ⟨n - 1, by omega⟩
      obtain ⟨m', rfl⟩ : ∃ m', m = m' + 1 := ⟨m - 1, by omega⟩
      simp only [skipGo]
      match hs : skipStep (c :: t) with
      | none => rfl
      | some r =>
        have hr := skipStep_length hs
        simp only [List.length_cons] at hr hk hn hm
        exact ih r n' m' (by omega) (by omega) (by omega)

/-- Comments are consumed exclusively by the separator-skipping scanner, and
it is transparent to them: skipping a well-formed comment followed by
anything equals skipping that thing alone. -/
theorem skipInput_comment (c s : List Char) (h : WFComment c) :
    skipInput (c ++ s) = skipInput s := by
  have hstep : skipStep (c ++ s) = some s := by
    cases h with
    | eol b hb => exact skipStep_eol b s hb
    | block b hb => exact skipStep_block b s hb
  have hclen : 0 < c.length := by
    cases h <;> simp
  unfold skipInput
  have hlen : (c ++ s).length = (c.length + s.length - 1) + 1 := by
    simp [List.length_append]
    omega
  rw [hlen]
  simp only [skipGo, hstep]
  exact skipGo_congr (c.length + s.length - 1) s _ _ (by omega) (by omega) (le_refl _)

theorem rwFlat_cons (c : Char) (l : List Char) :
    rwFlat (c :: l) = rwChar c ++ rwFlat l := by
  simp [rwFlat]

theorem parseStringGo_spec (r : List Char) : ∀ (e : Bool) (acc : List Char),
    parseStringGo e acc r =
      (match closeIdx e r with
       | some j => .ok (r.drop (j + 1), acc ++ rwFlat (r.take j))
       | none => .error .unclosed) := by
  induction r with
  | nil => intro e acc; simp [parseStringGo, closeIdx]
  | cons c rest ih =>
    intro e acc
    by_cases h1 : c = '\\' ∧ e = false
    · have hq : ¬(c = '"' ∧ e = false) := by
        rintro ⟨rfl, _⟩
        exact absurd h1.1 (by decide)
      have hstep : escStep e c = true := by simp [escStep, h1]
      simp only [parseStringGo, if_pos h1, closeIdx, if_neg hq, hstep]
      rw [ih true (acc ++ rwChar c)]
      cases hcl : closeIdx true rest with
      | none => simp
      | some j =>
        simp only [Option.map_some]
        simp [List.drop_succ_cons, List.take_succ_cons, rwFlat_cons, List.append_assoc]
    · by_cases h2 : c = '"' ∧ e = false
      · simp only [parseStringGo, if_neg h1, if_pos h2, closeIdx]
        simp [rwFlat]
      · have hstep : escStep e c = (if rustWhitespace c then e else false) := by
          simp [escStep, h1]
        simp only [parseStringGo, if_neg h1, if_neg h2, closeIdx, hstep]
        rw [ih _ (acc ++ rwChar c)]
        cases hcl : closeIdx (if rustWhitespace c then e else false) rest with
        | none => simp
        | some j =>
          simp only [Option.map_some]
          simp [List.drop_succ_cons, List.take_succ_cons, rwFlat_cons, List.append_assoc]

theorem takeWhile_of_sub {p q : Char → Bool} (hpq : ∀ c, p c = true → q c = true) :
    ∀ s : List Char, s.takeWhile q = s.takeWhile p ++ (s.dropWhile p).takeWhile q := by
  intro s
  induction s with
  | nil => rfl
  | cons c r ih =>
    by_cases hp : p c = true
    · have hq := hpq c hp
      simp [List.takeWhile_cons, List.dropWhile_cons, hp, hq, ih]
    · simp [List.takeWhile_cons, List.dropWhile_cons, hp]

theorem dropWhile_of_sub {p q : Char → Bool} (hpq : ∀ c, p c = true → q c = true) :
    ∀ s : List Char, s.dropWhile q = (s.dropWhile p).dropWhile q := by
  intro s
  induction s with
  | nil => rfl
  | cons c r ih =>
    by_cases hp : p c = true
    · have hq := hpq c hp
      simp [List.dropWhile_cons, hp, hq, ih]
    · simp [List.dropWhile_cons, hp]

theorem contains_sub_of_all {l l2 : List Char}
    (hall : l.all (fun c => l2.contains c) = true) :
    ∀ c, l.contains c = true → l2.contains c = true := by
  induction l with
  | nil => intro c h; simp [List.contains] at h
  | cons x xs ih =>
    intro c h
    simp only [List.all_cons, Bool.and_eq_true] at hall
    rw [List.contains_cons] at h
    rcases Bool.or_eq_true_iff.mp h with hcx | hxs
    · have : c = x := beq_iff_eq.mp hcx
      rw [this]
      exact hall.1
    · exact ih hall.2 c hxs

theorem identStart_sub : ∀ c, isIdentStart c = true → isIdentChar c = true := by
  have hall : alphaChars.all (fun c => alnumChars.contains c) = true := by decide
  intro c h
  exact contains_sub_of_all hall c h

/-! ## Claim theorems -/

/-- C1: the claim says `from_str` never panics, in particular when the
prober wraps `"true false"` in a virtual bracket and a bool decode follows.
In fact that exact decode reaches the `unreachable!` in `skip_non_tokens`
(the virtual `[` is still unconsumed when `parse_bool` skips), i.e. the
process panics instead of returning a value or an error. -/
theorem c1_from_str_bool_true_false_panics :
    fromStrBool "true false".toList
      = .error "skip_non_tokens: pre has not been consumed" := by
  rfl

/-- C2 (counterexample): decoding the un-bracketed `a:1` against a map
target does not succeed — the prober wraps identifier-led documents in
virtual parentheses, and `deserialize_map` then rejects `'('` (it requires
`'{'`), so the decode returns an error rather than the claimed map. -/
theorem c2_bare_map_counterexample :
    fromStrMapI64 "a:1".toList = .ok (.error ⟨1, 0, "a:1".toList⟩) := by
  rfl

/-- C2 (amended): the prober wraps `a:1` (identifier-led) in virtual
parentheses, which a map decode rejects; only a quoted key makes the prober
supply virtual braces, under which `"a":1` decodes to the one-entry map. -/
theorem c2_amended_map_root_shape :
    Deserializer.from_str "a:1".toList
      = .ok ⟨"a:1".toList, some '(', "a:1".toList, some ')'⟩
    ∧ fromStrMapI64 ['"', 'a', '"', ':', '1'] = .ok (.ok [(['a'], 1)])
    ∧ Deserializer.from_str ['"', 'a', '"', ':', '1']
      = .ok ⟨['"', 'a', '"', ':', '1'], some '{', ['"', 'a', '"', ':', '1'], some '}'⟩ := by
  exact ⟨rfl, rfl, rfl⟩

/-- C3 (counterexample): decoding `(a:0)` through the schema-less `Value`
consumer does not succeed: `ValueVisitor::visit_map` decodes keys as
strings, and the identifier key `a` fails the string scanner, so the decode
errors instead of yielding a struct-flavored value. -/
theorem c3_paren_schema_less_counterexample :
    fromStrValue ['(', 'a', ':', '0', ')']
      = .ok (.error ⟨1, 1, ['(', 'a', ':', '0', ')']⟩) := by
  rfl

/-- C3 (amended): the schema-less consumer decodes `{"a":0}` to a
map-flavored value, but both `(a:0)` and bare `a:0` fail (keys are decoded
as quoted strings, and `Value` has no struct flavor); the container frame
does report fixed arity `some 0` for Struct and unknown `none` for Map
through `size_hint`, but the schema-less consumer never consults it. -/
theorem c3_amended_schema_less_map_only :
    fromStrValue ['{', '"', 'a', '"', ':', '0', '}']
      = .ok (.ok (.Map [(['a'], .Literal (.Number (.Int 0)))]))
    ∧ size_hint .STRUCT = some 0
    ∧ size_hint .HASHMAP = none
    ∧ fromStrValue "a:0".toList = .ok (.error ⟨1, 0, "a:0".toList⟩) := by
  exact ⟨rfl, rfl, rfl, rfl⟩

/-- The residual state that a map decode of `{[}` reaches at the entry
boundary, after consuming the opening brace. -/
def c4state : Deserializer := ⟨['{', '[', '}'], none, ['[', '}'], none⟩

/-- C4 (counterexample): at the entry boundary of a map frame whose input is
`[}`, the delimiter `[` is successfully read and is not the terminator; the
iteration then errors immediately at the post-delimiter position (column 2)
— it does not proceed into the key path, whose error would sit at the
delimiter itself (column 1).  The end-to-end decode of `{[}` reports the
boundary error. -/
theorem c4_nonterminator_counterexample :
    next_key_seed deString .HASHMAP c4state
      = .ok (.error ⟨1, 2, ['{', '[', '}']⟩, ⟨['{', '[', '}'], none, ['}'], none⟩)
    ∧ deString c4state = .ok (.error ⟨1, 1, ['{', '[', '}']⟩, c4state)
    ∧ (⟨1, 2, ['{', '[', '}']⟩ : JaclDeError) ≠ ⟨1, 1, ['{', '[', '}']⟩
    ∧ fromStrMapI64 ['{', '[', '}'] = .ok (.error ⟨1, 2, ['{', '[', '}']⟩) := by
  exact ⟨rfl, rfl, by decide, rfl⟩

/-- C4 (amended): during Map or Struct iteration, whenever a delimiter is
successfully read at an entry boundary and it is not the frame's terminator,
the iteration fails immediately at the boundary, at the state past the
consumed delimiter; the deeper key/value path is entered only when no
delimiter could be read at all. -/
theorem c4_amended_nonterminator_immediate_error {κ : Type}
    (seed : Deserializer → DeResult κ) (dt : DataType) (d d' : Deserializer)
    (val : Char) (_hdt : dt = .HASHMAP ∨ dt = .STRUCT)
    (h : d.parse_delim = .ok (.ok val, d'))
    (hterm : ¬((val = '}' ∧ dt = .HASHMAP) ∨ (val = ')' ∧ dt = .STRUCT))) :
    next_key_seed seed dt d =
      (match jaclNew d' with
       | .error p => .error p
       | .ok e => .ok (.error e, d')) := by
  simp only [next_key_seed, h, if_neg hterm]

/-- Witness for the amended C4 theorem at a concrete state. -/
theorem c4_amended_witness :
    next_key_seed deString .HASHMAP c4state
      = .ok (.error ⟨1, 2, ['{', '[', '}']⟩, ⟨['{', '[', '}'], none, ['}'], none⟩) := by
  exact c4_amended_nonterminator_immediate_error deString .HASHMAP c4state
    ⟨['{', '[', '}'], none, ['}'], none⟩ '[' (Or.inl rfl) rfl (by decide)

/-- C5: `1 2 3` decodes against a sequence-of-integers target to `[1,2,3]`
under virtual square brackets supplied by the prober, and bare `true`
decodes against a bool target to `true` with no implicit wrapping. -/
theorem c5_root_shape_inference :
    fromStrVecI64 "1 2 3".toList = .ok (.ok [1, 2, 3])
    ∧ Deserializer.from_str "1 2 3".toList
      = .ok ⟨"1 2 3".toList, some '[', "1 2 3".toList, some ']'⟩
    ∧ fromStrBool "true".toList = .ok (.ok true)
    ∧ Deserializer.from_str "true".toList
      = .ok ⟨"true".toList, none, "true".toList, none⟩ := by
  exact ⟨rfl, rfl, rfl, rfl⟩

/-- C6 (counterexample): inserting the line comment `// c` at the separator
position after the top-level value, at the very end of the input, breaks the
decode: the comment scanner requires a terminating newline, so the comment
is left unconsumed and `from_str` reports trailing input. -/
theorem c6_eol_comment_at_eof_counterexample :
    fromStrBool "true".toList = .ok (.ok true)
    ∧ fromStrBool "true// c".toList = .ok (.error ⟨1, 4, "true// c".toList⟩) := by
  exact ⟨rfl, rfl⟩

/-- C6 (amended): comments are consumed exclusively by the separator-
skipping scanner, which is transparent to every well-formed comment — a
block comment, or a line comment together with its terminating newline —
before any suffix; consequently inserting such a comment at separator
positions of a decoding document preserves the decoded value, verified here
end-to-end at each separator position of `[1 2 3]`, of the bare `1 2 3`,
and of `true`, for both comment forms. -/
theorem c6_amended_comment_transparency :
    (∀ c s, WFComment c → skipInput (c ++ s) = skipInput s)
    ∧ (fromStrVecI64 "/*x*/[1 2 3]".toList = .ok (.ok [1, 2, 3])
    ∧ fromStrVecI64 "[/*x*/1 2 3]".toList = .ok (.ok [1, 2, 3])
    ∧ fromStrVecI64 "[1/*x*/ 2 3]".toList = .ok (.ok [1, 2, 3])
    ∧ fromStrVecI64 "[1 /*x*/2 3]".toList = .ok (.ok [1, 2, 3])
    ∧ fromStrVecI64 "[1 2/*x*/ 3]".toList = .ok (.ok [1, 2, 3])
    ∧ fromStrVecI64 "[1 2 /*x*/3]".toList = .ok (.ok [1, 2, 3])
    ∧ fromStrVecI64 "[1 2 3/*x*/]".toList = .ok (.ok [1, 2, 3])
    ∧ fromStrVecI64 "[1 2 3]/*x*/".toList = .ok (.ok [1, 2, 3])
    ∧ fromStrVecI64 "//x\n[1 2 3]".toList = .ok (.ok [1, 2, 3])
    ∧ fromStrVecI64 "[//x\n1 2 3]".toList = .ok (.ok [1, 2, 3])
    ∧ fromStrVecI64 "[1//x\n 2 3]".toList = .ok (.ok [1, 2, 3])
    ∧ fromStrVecI64 "[1 //x\n2 3]".toList = .ok (.ok [1, 2, 3])
    ∧ fromStrVecI64 "[1 2//x\n 3]".toList = .ok (.ok [1, 2, 3])
    ∧ fromStrVecI64 "[1 2 //x\n3]".toList = .ok (.ok [1, 2, 3])
    ∧ fromStrVecI64 "[1 2 3//x\n]".toList = .ok (.ok [1, 2, 3])
    ∧ fromStrVecI64 "[1 2 3]//x\n".toList = .ok (.ok [1, 2, 3])
    ∧ fromStrVecI64 "/*x*/1 2 3".toList = .ok (.ok [1, 2, 3])
    ∧ fromStrVecI64 "1/*x*/ 2 3".toList = .ok (.ok [1, 2, 3])
    ∧ fromStrVecI64 "1 /*x*/2 3".toList = .ok (.ok [1, 2, 3])
    ∧ fromStrVecI64 "1 2/*x*/ 3".toList = .ok (.ok [1, 2, 3])
    ∧ fromStrVecI64 "1 2 /*x*/3".toList = .ok (.ok [1, 2, 3])
    ∧ fromStrVecI64 "1 2 3/*x*/".toList = .ok (.ok [1, 2, 3])
    ∧ fromStrVecI64 "//x\n1 2 3".toList = .ok (.ok [1, 2, 3])
    ∧ fromStrVecI64 "1//x\n 2 3".toList = .ok (.ok [1, 2, 3])
    ∧ fromStrVecI64 "1 //x\n2 3".toList = .ok (.ok [1, 2, 3])
    ∧ fromStrVecI64 "1 2//x\n 3".toList = .ok (.ok [1, 2, 3])
    ∧ fromStrVecI64 "1 2 //x\n3".toList = .ok (.ok [1, 2, 3])
    ∧ fromStrVecI64 "1 2 3//x\n".toList = .ok (.ok [1, 2, 3])
    ∧ fromStrBool "/*x*/true".toList = .ok (.ok true)
    ∧ fromStrBool "true/*x*/".toList = .ok (.ok true)
    ∧ fromStrBool "//x\ntrue".toList = .ok (.ok true)
    ∧ fromStrBool "true//x\n".toList = .ok (.ok true)) := by
  refine ⟨fun c s h => skipInput_comment c s h, ?_⟩
  exact ⟨rfl, rfl, rfl, rfl, rfl, rfl, rfl, rfl, rfl, rfl, rfl, rfl,
    rfl, rfl, rfl, rfl, rfl, rfl, rfl, rfl, rfl, rfl, rfl, rfl,
    rfl, rfl, rfl, rfl, rfl, rfl, rfl, rfl⟩

/-- Witness for the amended C6 theorem: skipper transparency applied to the
concrete block comment `/*x*/` in front of `[]`. -/
theorem c6_amended_witness :
    skipInput (('/' :: '*' :: (['x'] ++ ['*', '/'])) ++ "[]".toList)
      = skipInput "[]".toList := by
  exact c6_amended_comment_transparency.1 ('/' :: '*' :: (['x'] ++ ['*', '/']))
    "[]".toList (WFComment.block ['x'] rfl)

/-- C7 (counterexample): a closing quote immediately following an escaped
whitespace character does not terminate the string — `"\ "` scans to
"unclosed string" because the escape flag survives across whitespace;
moreover the empty input yields "unclosed string", not "not a string". -/
theorem c7_escaped_whitespace_counterexample :
    parse_string ['"', '\\', ' ', '"'] = .error .unclosed
    ∧ parse_string ([] : List Char) = .error .unclosed := by
  exact ⟨rfl, rfl⟩

/-- C7 (amended): for input starting with a quote the scanner consumes up to
the first closing quote the escape flag marks as unescaped — the flag is set
by a backslash and cleared only by the next non-whitespace character, so a
quote after backslash-plus-whitespace is still escaped — returning the
newline-rewritten content; "unclosed string" when no such quote exists (and
for empty input), "not a string" for any other first character. -/
theorem c7_amended_string_scan_characterization :
    ∀ s, parse_string s = stringScanSpec s := by
  intro s
  cases s with
  | nil => rfl
  | cons c rest =>
    by_cases hc : c = '"'
    · subst hc
      simp only [parse_string, stringScanSpec, if_pos rfl]
      rw [parseStringGo_spec rest false []]
      cases closeIdx false rest <;> simp
    · simp [parse_string, stringScanSpec, hc]

/-- C8 (counterexample): the identifier scanner rejects `Abc` — its leading
character class contains only lowercase letters and underscore, so an
uppercase-initial identifier is not accepted, contrary to the claim. -/
theorem c8_uppercase_counterexample :
    identifier ['A', 'b', 'c'] = none := by
  rfl

/-- C8 (amended): the identifier scanner accepts exactly the strings whose
first character is a lowercase letter or underscore, recognizing the maximal
prefix of lowercase-alphanumeric/underscore characters. -/
theorem c8_amended_identifier_characterization :
    ∀ s, identifier s = identSpec s := by
  intro s
  cases s with
  | nil => rfl
  | cons c r =>
    by_cases h : isIdentStart c = true
    · simp only [identifier, identSpec, h, if_true]
      rw [takeWhile_of_sub identStart_sub (c :: r),
        dropWhile_of_sub identStart_sub (c :: r)]
    · simp [identifier, identSpec, h]

/-- C9: decoding `[1 2 3]      abc` as an integer sequence fails at line 1,
column 13 (zero-based, the first character of `abc`), the diagnostic carries
the recovered source line, and the caret marker is `-` repeated 13 times
followed by `^`. -/
theorem c9_error_position :
    fromStrVecU64 "[1 2 3]      abc".toList
      = .ok (.error ⟨1, 13, "[1 2 3]      abc".toList⟩)
    ∧ displayMarker ⟨1, 13, "[1 2 3]      abc".toList⟩
      = ['-', '-', '-', '-', '-', '-', '-', '-', '-', '-', '-', '-', '-', '^', '\n'] := by
  exact ⟨rfl, rfl⟩

/-- C10: shape-free decoding decides int vs float by probing an i64 parse
and checking for a residual `.`: on `1e5` both shape-free consumers stop at
the integer `1` and the whole-document decode fails on the trailing `e5`,
while an `f64` target parses `1e5` to 100000; on `.5` the shape-free
dispatch rejects the leading `.` outright, while an `f64` target yields
0.5. -/
theorem c10_shape_free_number_dispatch :
    fromStrNumber "1e5".toList = .ok (.error ⟨1, 1, "1e5".toList⟩)
    ∧ fromStrValue "1e5".toList = .ok (.error ⟨1, 1, "1e5".toList⟩)
    ∧ fromStrF64 "1e5".toList = .ok (.ok ⟨1, 5⟩)
    ∧ FloatVal.toRat ⟨1, 5⟩ = 100000
    ∧ fromStrNumber ".5".toList = .ok (.error ⟨1, 0, ".5".toList⟩)
    ∧ fromStrValue ".5".toList = .ok (.error ⟨1, 0, ".5".toList⟩)
    ∧ fromStrF64 ".5".toList = .ok (.ok ⟨5, -1⟩)
    ∧ FloatVal.toRat ⟨5, -1⟩ = 1 / 2 := by
  refine ⟨rfl, rfl, rfl, ?_, rfl, rfl, rfl, ?_⟩ <;> norm_num [FloatVal.toRat]
